import Mathlib

/-!
Verification development for the cross-exchange arbitrage aggregator.

The definitions below are a shallow embedding of the JavaScript source:

* `src/index.js` (current `main`): `getMidPrice`, the per-exchange token
  collection loops, the opportunity construction (`aggregatedList`), and the
  periodic-summary windowed delta `calcTotals`;
* `src/exchanges/okx.js`: `handleReconnect`, the `close`-event handler, and
  the funding merge behaviour;
* `src/unnamed/part_004` (`BinanceExchange`): `handleReconnect`,
  `handleConnectionClose`;
* `src/unnamed/part_001` (`BybitExchange`): `fetchFundingInfo`;
* `src/unnamed/part_002` (`BackpackExchange`): `fetchFundingInfo`,
  `scheduleReconnect`.

JavaScript numbers that matter here are modelled as `ℚ`; a JS value that is
`null`/`undefined`/`NaN` (all non-finite for `Number.isFinite`, all falsy) is
modelled as `none : Option ℚ`.  JS objects used as string-keyed maps are
modelled as association lists in insertion order, which mirrors JS object key
order (existing keys keep their position on update, new keys append).
-/

/-- JS `x || d` for a numeric `x` (`none` models `undefined`/`null`/`NaN`,
which are falsy; the number `0` is falsy as well). -/
def jsOr (x : Option ℚ) (d : ℚ) : ℚ :=
  match x with
  | none => d
  | some v => if v = 0 then d else v

/-- Set key `k` to `v` in an association list, JS-object style: an existing
key is updated in place, a missing key is appended at the end. -/
def assocSet {κ β : Type} [DecidableEq κ] : List (κ × β) → κ → β → List (κ × β)
  | [], k, v => [(k, v)]
  | (k', v') :: rest, k, v =>
    if k' = k then (k', v) :: rest else (k', v') :: assocSet rest k v

/-- A ticker snapshot as consumed by `main` (`src/index.js`): only the fields
the aggregation reads.  `none` = the field is absent / `null` / `NaN`. -/
structure Ticker where
  bid : Option ℚ
  ask : Option ℚ
  last : Option ℚ
  baseVolume : Option ℚ
  deriving DecidableEq

/-- The `last`-price fallback inside `getMidPrice` (`src/index.js` 208-209):
`Number.isFinite(last) && last > 0 ? last : null`. -/
def lastFallback (t : Ticker) : Option ℚ :=
  match t.last with
  | some l => if 0 < l then some l else none
  | none => none

/-- `getMidPrice` from `src/index.js` lines 202-210: `(bid+ask)/2` when both
are finite and `> 0`, else the `last` fallback, else `null`. -/
def getMidPrice (t : Ticker) : Option ℚ :=
  match t.bid, t.ask with
  | some b, some a => if 0 < b ∧ 0 < a then some ((b + a) / 2) else lastFallback t
  | _, _ => lastFallback t

/-- The six exchanges wired into the current `main` of `src/index.js`. -/
inductive Exchange where
  | OKX | BYBIT | BINANCE | BACKPACK | EDGEX | HYPERLIQUID
  deriving DecidableEq

/-- The fixed order in which `main` runs the per-exchange collection loops
(`src/index.js` lines 212-300). -/
def exchangeOrder : List Exchange :=
  [.OKX, .BYBIT, .BINANCE, .BACKPACK, .EDGEX, .HYPERLIQUID]

/-- A stored funding record (`fundingMap[symbol]`).  Fields are optional:
a record may lack a field (`undefined`) or hold `NaN`/`null`. -/
structure FundingRec where
  fundingRate : Option ℚ
  fundingTime : Option ℚ
  fundingInterval : Option ℚ
  deriving DecidableEq

/-- A per-exchange funding map, JS object keyed by unified symbol. -/
def FMap : Type := List (String × FundingRec)

instance : DecidableEq FMap := by unfold FMap; infer_instance

/-- The per-exchange record `main` places into `tokenData[key].exchanges`
(`src/index.js` lines 218-224); the constant `type: '合约'` field is omitted
because it is the same on every entry. -/
structure Entry where
  price : ℚ
  fundingRate : ℚ
  nextFundingTime : ℚ
  volume : ℚ
  deriving DecidableEq

/-- Build the entry `main` stores for one symbol of one exchange
(`src/index.js` lines 218-224): `fundingMap[symbol]?.fundingRate || 0`,
`fundingMap[symbol]?.fundingTime || 0`, `ticker.baseVolume || 0`. -/
def mkEntry (fmap : FMap) (sym : String) (t : Ticker) (p : ℚ) : Entry :=
  { price := p
    fundingRate := jsOr ((List.lookup sym fmap).bind (·.fundingRate)) 0
    nextFundingTime := jsOr ((List.lookup sym fmap).bind (·.fundingTime)) 0
    volume := jsOr t.baseVolume 0 }

/-- `symbol.split('/')[0]` (`src/index.js` line 216): the part of the symbol
before the first `/`. -/
def baseOf (sym : String) : String :=
  ⟨sym.data.takeWhile (· ≠ '/')⟩

/-- One value of `tokenData`: the base-asset key plus the per-exchange map. -/
structure Token where
  symbol : String
  exchanges : List (Exchange × Entry)
  deriving DecidableEq

/-- Insert/update `tokenData[key].exchanges[ex] = e`
(`src/index.js` lines 217-224): create the token on first sight of the base
asset, otherwise update its exchange map in place. -/
def insertToken : List Token → String → Exchange → Entry → List Token
  | [], key, ex, e => [⟨key, [(ex, e)]⟩]
  | t :: rest, key, ex, e =>
    if t.symbol = key then { t with exchanges := assocSet t.exchanges ex e } :: rest
    else t :: insertToken rest key ex e

/-- The body of one iteration of a per-exchange collection loop
(`src/index.js` lines 213-225): skip unless the mid price is finite and
positive, then record the entry under the base-asset key. -/
def collectTicker (ex : Exchange) (fmap : FMap) (td : List Token)
    (p : String × Ticker) : List Token :=
  match getMidPrice p.2 with
  | none => td
  | some price =>
    if price ≤ 0 then td
    else insertToken td (baseOf p.1) ex (mkEntry fmap p.1 p.2 price)

/-- What the aggregation cycle reads from one exchange: its ticker map and
its funding map. -/
structure ExchangeData where
  tickers : List (String × Ticker)
  funding : FMap

/-- The input of one aggregation cycle. -/
def AggInput : Type := Exchange → ExchangeData

/-- Run one exchange's collection loop (`src/index.js`, one of the six
`for (const [symbol, ticker] of Object.entries(...))` loops). -/
def addExchange (input : AggInput) (td : List Token) (ex : Exchange) : List Token :=
  (input ex).tickers.foldl (collectTicker ex (input ex).funding) td

/-- Build `tokenData` by running the collection loops of the given exchanges
in order. -/
def buildTokenDataOn (exs : List Exchange) (input : AggInput) : List Token :=
  exs.foldl (addExchange input) []

/-- `tokenData` after all six loops (`src/index.js` lines 199-300). -/
def buildTokenData (input : AggInput) : List Token :=
  buildTokenDataOn exchangeOrder input

/-- `entries.filter(([, d]) => d.price && d.price > 0)`
(`src/index.js` line 309). -/
def priceEntries (exs : List (Exchange × Entry)) : List (Exchange × Entry) :=
  exs.filter fun p => decide (p.2.price ≠ 0) && decide (0 < p.2.price)

/-- `entries.filter(([, d]) => typeof d.fundingRate === 'number')`
(`src/index.js` line 316).  In the embedding `fundingRate : ℚ`, so the
`typeof` test is always true — exactly as in the source, where the field is
always set from `... || 0`. -/
def fundingEntries (exs : List (Exchange × Entry)) : List (Exchange × Entry) :=
  exs.filter fun _ => true

/-- `list.reduce((a, b) => (key a <= key b ? a : b))` on a nonempty list:
the JS `reduce` with no initial value starts from the head.  Ties keep `a`,
i.e. the earlier element. -/
def pickMinFold {α : Type} (key : α → ℚ) (acc : α) (l : List α) : α :=
  l.foldl (fun a b => if key a ≤ key b then a else b) acc

/-- `reduce` with `<=`, as an `Option` for the empty list. -/
def pickMin {α : Type} (key : α → ℚ) : List α → Option α
  | [] => none
  | h :: t => some (pickMinFold key h t)

/-- `list.reduce((a, b) => (key a >= key b ? a : b))` on a nonempty list. -/
def pickMaxFold {α : Type} (key : α → ℚ) (acc : α) (l : List α) : α :=
  l.foldl (fun a b => if key a ≥ key b then a else b) acc

/-- `reduce` with `>=`, as an `Option` for the empty list. -/
def pickMax {α : Type} (key : α → ℚ) : List α → Option α
  | [] => none
  | h :: t => some (pickMaxFold key h t)

/-- A published opportunity (`src/index.js` lines 320-329): the token key,
its per-exchange map, and the four `tradingAdvice` fields. -/
structure Opp where
  symbol : String
  exchanges : List (Exchange × Entry)
  longExchange : Option Exchange
  shortExchange : Option Exchange
  longFunding : Option Exchange
  shortFunding : Option Exchange
  deriving DecidableEq

/-- The per-token body of the `aggregatedList` map (`src/index.js` lines
304-330): `null` below two exchanges or below two priced entries, otherwise
the advice record built from the four `reduce` calls. -/
def buildOpp (tok : Token) : Option Opp :=
  let entries := tok.exchanges
  if entries.length < 2 then none
  else
    let pe := priceEntries entries
    if pe.length < 2 then none
    else
      let fe := fundingEntries entries
      let minF := if fe.length ≠ 0 then pickMin (fun p => p.2.fundingRate) fe else none
      let maxF := if fe.length ≠ 0 then pickMax (fun p => p.2.fundingRate) fe else none
      some
        { symbol := tok.symbol
          exchanges := entries
          longExchange := (pickMin (fun p => p.2.price) pe).map (·.1)
          shortExchange := (pickMax (fun p => p.2.price) pe).map (·.1)
          longFunding := minF.map (·.1)
          shortFunding := maxF.map (·.1) }

/-- `aggregatedList` over an explicit list of exchanges. -/
def aggregateOn (exs : List Exchange) (input : AggInput) : List Opp :=
  (buildTokenDataOn exs input).filterMap buildOpp

/-- The full `aggregatedList` of one cycle (`src/index.js` lines 303-331). -/
def aggregate (input : AggInput) : List Opp :=
  aggregateOn exchangeOrder input

/-! ### Connector sessions: reconnect and close handling -/

/-- Error categories used by the Binance session (`src/unnamed/part_004`):
close-code classes from `handleConnectionClose` (lines 208-215) and error
classes from `handleConnectionError` (lines 234-238). -/
inductive ErrType where
  | normal | goingAway | protocolError | unsupportedData | abnormalClosure
  | serverError | dnsError | connectionRefused | timeout | connectionReset
  | unknown
  deriving DecidableEq

/-- `OKXExchange.handleReconnect` (`src/exchanges/okx.js` lines 338-347):
with `maxReconnectAttempts = 5` and `reconnectDelay = 5000`, a call made with
`reconnectAttempts = attempts` either gives up (`attempts ≥ 5`) or bumps the
counter and schedules a reconnect after `5000 * newAttempts` ms.  The result
is `(new attempt counter, delay in ms)`, `none` when nothing is scheduled. -/
def okxHandleReconnect (attempts : ℕ) : Option (ℕ × ℚ) :=
  if 5 ≤ attempts then none
  else some (attempts + 1, 5000 * (attempts + 1))

/-- The delay formula of `BinanceExchange.handleReconnect`
(`src/unnamed/part_004` lines 283-291): `delay = 5000 * attempts`, doubled
and capped at 60000 for DNS/refused-connection errors, times 1.5 capped at
30000 for server errors. -/
def binanceDelay (n : ℕ) (e : ErrType) : ℚ :=
  let d : ℚ := 5000 * n
  if e = .dnsError ∨ e = .connectionRefused then min (d * 2) 60000
  else if e = .serverError then min (d * 1.5) 30000
  else d

/-- `BinanceExchange.handleReconnect` (`src/unnamed/part_004` lines 273-301):
gives up at `maxReconnectAttempts = 5`, otherwise bumps the counter and
schedules after `binanceDelay`. -/
def binanceHandleReconnect (attempts : ℕ) (e : ErrType) : Option (ℕ × ℚ) :=
  if 5 ≤ attempts then none
  else some (attempts + 1, binanceDelay (attempts + 1) e)

/-- The close-code classification of `BinanceExchange.handleConnectionClose`
(`src/unnamed/part_004` lines 208-215). -/
def closeTypeOf (code : ℕ) : ErrType :=
  if code = 1000 then .normal
  else if code = 1001 then .goingAway
  else if code = 1002 then .protocolError
  else if code = 1003 then .unsupportedData
  else if code = 1006 then .abnormalClosure
  else if code = 1011 then .serverError
  else .unknown

/-- `BinanceExchange.handleConnectionClose` (`src/unnamed/part_004` lines
203-224): only a non-1000 close code reaches `handleReconnect`. -/
def binanceHandleClose (code : ℕ) (attempts : ℕ) : Option (ℕ × ℚ) :=
  if code ≠ 1000 then binanceHandleReconnect attempts (closeTypeOf code)
  else none

/-- The OKX `close` handler (`src/exchanges/okx.js` lines 249-254): it calls
`handleReconnect` on every close event; the close code is logged but never
examined. -/
def okxHandleClose (_code : ℕ) (attempts : ℕ) : Option (ℕ × ℚ) :=
  okxHandleReconnect attempts

/-- `BackpackExchange.scheduleReconnect` reached from its `close` handler
(`src/unnamed/part_002` lines 101-105 and 184-192): every close schedules a
reconnect after the constant `reconnectInterval = 5000` ms, with no attempt
counter and no cap. -/
def backpackHandleClose (_code : ℕ) : Option ℚ :=
  some 5000

/-! ### StatsCollector: the 15-minute windowed delta -/

/-- One `statsCounters[section][exchange]` cell (`src/index.js` lines
85-102); `lastUpdate` is not used by the delta computation. -/
structure Counter where
  success : ℤ
  errors : ℤ
  skipped : ℤ
  deriving DecidableEq

/-- The result of `calcTotals` (`src/index.js` lines 764-776). -/
structure StatsTotals where
  total : ℤ
  success : ℤ
  errors : ℤ
  skipped : ℤ
  deriving DecidableEq

/-- The loop body of `calcTotals`: add the per-exchange deltas, each clamped
at zero by `Math.max(0, curr - prev)` (`src/index.js` lines 771-773); a
missing baseline cell defaults to all-zero (lines 768-770). -/
def calcStep (prev : List (String × Counter)) (acc : ℤ × ℤ × ℤ)
    (p : String × Counter) : ℤ × ℤ × ℤ :=
  let pr := (List.lookup p.1 prev).getD ⟨0, 0, 0⟩
  (acc.1 + max 0 (p.2.success - pr.success),
   acc.2.1 + max 0 (p.2.errors - pr.errors),
   acc.2.2 + max 0 (p.2.skipped - pr.skipped))

/-- `calcTotals(section)` from `logPeriodicSummary` (`src/index.js` lines
764-776): fold the clamped deltas over the current section's exchanges and
return `{ total, success, errors, skipped }`. -/
def calcTotals (curr prev : List (String × Counter)) : StatsTotals :=
  let f := curr.foldl (calcStep prev) (0, 0, 0)
  ⟨f.1 + f.2.1 + f.2.2, f.1, f.2.1, f.2.2⟩

/-! ### Funding refresh merge policy (Bybit and Backpack) -/

/-- One element of `response.data.result.list` in
`BybitExchange.fetchFundingInfo` (`src/unnamed/part_001`).  `none` models a
missing or falsy field, which the guard on line 75 rejects. -/
structure BybitItem where
  symbol : String
  fundingRate : Option ℚ
  nextFundingTime : Option ℚ
  deriving DecidableEq

/-- `item.symbol.replace('USDT', '/USDT:USDT')` (`src/unnamed/part_001` line
76): JS `String.replace` with a string pattern replaces only the first
occurrence. -/
def bybitUnify (s : String) : String :=
  match splitAtPat "USDT".data s.data with
  | none => s
  | some (pre, post) => ⟨pre⟩ ++ "/USDT:USDT" ++ ⟨post⟩
where
  /-- Split a character list at the first occurrence of `pat`. -/
  splitAtPat (pat : List Char) : List Char → Option (List Char × List Char)
    | [] => none
    | c :: rest =>
      if (c :: rest).take pat.length = pat then some ([], (c :: rest).drop pat.length)
      else (splitAtPat pat rest).map fun q => (c :: q.1, q.2)

/-- The per-item body of the Bybit funding loop (`src/unnamed/part_001` lines
73-105): a record is stored (and counted as a success) only when both
`fundingRate` and `nextFundingTime` are truthy. -/
def bybitStep (m : FMap) (item : BybitItem) : FMap :=
  match item.fundingRate, item.nextFundingTime with
  | some r, some t => assocSet m (bybitUnify item.symbol) ⟨some r, some t, some 8⟩
  | _, _ => m

/-- The map built by one Bybit cycle, starting from the freshly cleared
`this.fundingMap = {}` (`src/unnamed/part_001` line 69). -/
def bybitBuild (list : List BybitItem) : FMap :=
  list.foldl bybitStep []

/-- The `successCount` of a Bybit cycle (`src/unnamed/part_001` lines 75-84). -/
def bybitSuccessCount (list : List BybitItem) : ℕ :=
  (list.filter fun i => i.fundingRate.isSome && i.nextFundingTime.isSome).length

/-- `BybitExchange.fetchFundingInfo` as a transformer of the stored funding
map (`src/unnamed/part_001` lines 47-124).  `resp = none` models a request
error or a structurally invalid response (no `result.list`), which leaves
the map untouched; a structurally valid response clears the map and rebuilds
it from scratch, regardless of how many records succeed. -/
def bybitFetchFundingInfo (prev : FMap) (resp : Option (List BybitItem)) : FMap :=
  match resp with
  | none => prev
  | some list => bybitBuild list

/-- The pre-parsed content of one Backpack `/api/v1/fundingRates` response
head element (`src/unnamed/part_002` lines 315-399).  `nextFundingMs` is the
first parsable candidate among the `nextFundingTime`-style fields,
`fundingTimeMs` the first among the `fundingTime`-style fields (both after
`parseFlexibleTimeToMs`); `none` = no parsable candidate. -/
structure BackpackRaw where
  fundingRate : Option ℚ
  nextFundingMs : Option ℚ
  fundingTimeMs : Option ℚ
  fundingIntervalHours : Option ℚ
  deriving DecidableEq

/-- `BackpackExchange.convertSymbolToUnified` (`src/unnamed/part_002` lines
194-203): uppercase, and `BASE_..._PERP ↦ BASE/USDT:USDT`. -/
def backpackUnify (s : String) : String :=
  let d := s.data.map Char.toUpper
  if d.drop (d.length - 5) = "_PERP".data then
    ⟨d.takeWhile (· ≠ '_')⟩ ++ "/USDT:USDT"
  else ⟨d⟩

/-- The funding record Backpack builds from a successful response
(`src/unnamed/part_002` lines 342-399): interval defaults to 8 hours, and
`nextFundingTime` falls back to `fundingTime + interval` when no direct
candidate parsed. -/
def backpackRec (raw : BackpackRaw) (r : ℚ) : FundingRec :=
  let hours := jsOr raw.fundingIntervalHours 8
  let intervalMs := hours * 60 * 60 * 1000
  let nf : Option ℚ :=
    match raw.nextFundingMs with
    | some v => some v
    | none => raw.fundingTimeMs.map (· + intervalMs)
  ⟨some r, nf, some hours⟩

/-- The outcome of one Backpack per-market fetch (`src/unnamed/part_002`
lines 276-433): `resp = none` is a failed request (after retries), an empty
array is an invalid response, a head element without `fundingRate` is
skipped; only a head element with a `fundingRate` field produces a record
and counts as a success. -/
def backpackOutcome (p : String × Option (List BackpackRaw)) :
    Option (String × FundingRec) :=
  match p.2 with
  | some (raw :: _) =>
    match raw.fundingRate with
    | some r => some (backpackUnify p.1, backpackRec raw r)
    | none => none
  | _ => none

/-- `newFundingMap` of one Backpack cycle (`src/unnamed/part_002` lines
271-433), built in a temporary map. -/
def backpackNewMap (markets : List (String × Option (List BackpackRaw))) : FMap :=
  markets.foldl
    (fun m p =>
      match backpackOutcome p with
      | some kv => assocSet m kv.1 kv.2
      | none => m)
    []

/-- The `successCount` of one Backpack cycle. -/
def backpackSuccessCount (markets : List (String × Option (List BackpackRaw))) : ℕ :=
  (markets.filter fun p => (backpackOutcome p).isSome).length

/-- `BackpackExchange.fetchFundingInfo` as a transformer of the stored map
(`src/unnamed/part_002` lines 253-448): the new map replaces the old one
only when at least one record succeeded (lines 436-438). -/
def backpackFetchFundingInfo (prev : FMap)
    (markets : List (String × Option (List BackpackRaw))) : FMap :=
  if 0 < backpackSuccessCount markets then backpackNewMap markets else prev

/-! ### The aggregation cycle seen from `main` (failure handling) -/

/-- What each connector's `fetchTickers()` promise does with a transport
outcome.  Every connector except Hyperliquid swallows errors inside
`fetchTickers` and resolves with a map (`src/exchanges/okx.js` 350-355 and
60-63, `src/unnamed/part_001` 41-44, `src/unnamed/part_002` 247-250,
`src/unnamed/part_004` 380-384, `src/exchanges/edgex.ts` 673-686); the error
branches resolve with an empty or cached map, modelled here as `[]`.
`HyperliquidExchange.fetchTickers` rethrows (`src/exchanges/hyperliquid.js`
lines 144-147), so its promise rejects. -/
def connectorTickers (ex : Exchange) (transport : Except String (List (String × Ticker))) :
    Except String (List (String × Ticker)) :=
  match ex, transport with
  | .HYPERLIQUID, r => r
  | _, .ok m => .ok m
  | _, .error _ => .ok []

/-- Whether an `Except` is a success. -/
def exceptOk {α : Type} : Except String α → Bool
  | .ok _ => true
  | .error _ => false

/-- The value of a successful `Except`, `[]` for an error (unreachable when
guarded by `exceptOk`). -/
def exceptTickers : Except String (List (String × Ticker)) → List (String × Ticker)
  | .ok m => m
  | .error _ => []

/-- The aggregation input assembled by `main` (`src/index.js` lines 114-171):
each exchange's resolved ticker map plus its cached `getFundingMap()`. -/
def mkCycleInput (transport : Exchange → Except String (List (String × Ticker)))
    (fund : Exchange → FMap) : AggInput :=
  fun ex => ⟨exceptTickers (connectorTickers ex (transport ex)), fund ex⟩

/-- One `main()` cycle as a transformer of `latestOpportunities`
(`src/index.js` lines 107-437): the six `fetchTickers()` calls are joined by
`Promise.all`; if any of them rejects, the `catch` block logs the error and
`latestOpportunities` is left as it was (no publish); otherwise the cycle
publishes `aggregatedList`.  The surrounding `try/catch` means the cycle
itself never throws. -/
def mainCycle (transport : Exchange → Except String (List (String × Ticker)))
    (fund : Exchange → FMap) (prevOpps : List Opp) : List Opp :=
  if exchangeOrder.all (fun ex => exceptOk (connectorTickers ex (transport ex))) then
    aggregate (mkCycleInput transport fund)
  else prevOpps

/-! ### Invariants of the token-data build -/

/-- Every entry of a token stems from a usable ticker of its exchange:
positive price, witnessed by a ticker of that exchange whose mid price is
exactly the entry's price, with matching base asset. -/
def EntryOk (input : AggInput) (key : String) (p : Exchange × Entry) : Prop :=
  0 < p.2.price ∧ ∃ sym t, (sym, t) ∈ (input p.1).tickers ∧
    getMidPrice t = some p.2.price ∧ baseOf sym = key

/-- Well-formedness of a token relative to the list `pre` of exchanges whose
collection loops have run: every entry is `EntryOk` and the exchange keys
are (in order, without duplicates) a sublist of `pre`. -/
def TokOk (input : AggInput) (pre : List Exchange) (tok : Token) : Prop :=
  (∀ p ∈ tok.exchanges, EntryOk input tok.symbol p) ∧
    List.Sublist (tok.exchanges.map Prod.fst) pre

def TDOk (input : AggInput) (pre : List Exchange) (td : List Token) : Prop :=
  ∀ tok ∈ td, TokOk input pre tok


/-! ### Concrete cycle inputs used in the example and counterexample theorems -/

/-- A ticker with `bid = ask = last = p` and base volume 1. -/
def tickAt (p : ℚ) : Ticker := ⟨some p, some p, some p, some 1⟩

def emptyData : ExchangeData := ⟨[], []⟩

/-- Prices OKX 100, BYBIT 105, BINANCE 102 for the same base asset
(the spec example `{A:100, B:105, C:102}` with A = OKX, B = BYBIT,
C = BINANCE); no funding data. -/
def c6Input : AggInput := fun ex =>
  match ex with
  | .OKX => ⟨[("BTC/USDT:USDT", tickAt 100)], []⟩
  | .BYBIT => ⟨[("BTC/USDT:USDT", tickAt 105)], []⟩
  | .BINANCE => ⟨[("BTC/USDT:USDT", tickAt 102)], []⟩
  | _ => emptyData

/-- Funding rates OKX −0.0010, BYBIT 0.0020, BINANCE 0.0005 (the spec
example `{A:-0.0010, B:0.0020, C:0.0005}`), equal prices. -/
def c5Input : AggInput := fun ex =>
  match ex with
  | .OKX => ⟨[("BTC/USDT:USDT", tickAt 100)],
      [("BTC/USDT:USDT", ⟨some (-1/1000), some 0, none⟩)]⟩
  | .BYBIT => ⟨[("BTC/USDT:USDT", tickAt 100)],
      [("BTC/USDT:USDT", ⟨some (2/1000), some 0, none⟩)]⟩
  | .BINANCE => ⟨[("BTC/USDT:USDT", tickAt 100)],
      [("BTC/USDT:USDT", ⟨some (5/10000), some 0, none⟩)]⟩
  | _ => emptyData

/-- OKX has a usable price but no funding record at all; BYBIT and BINANCE
report funding rates 0.0010 and 0.0020. -/
def c5cxInput : AggInput := fun ex =>
  match ex with
  | .OKX => ⟨[("BTC/USDT:USDT", tickAt 100)], []⟩
  | .BYBIT => ⟨[("BTC/USDT:USDT", tickAt 100)],
      [("BTC/USDT:USDT", ⟨some (1/1000), some 0, none⟩)]⟩
  | .BINANCE => ⟨[("BTC/USDT:USDT", tickAt 100)],
      [("BTC/USDT:USDT", ⟨some (2/1000), some 0, none⟩)]⟩
  | _ => emptyData

/-- Integer-valued funding rates OKX −1, BYBIT 2, BINANCE 1, equal prices
(used to instantiate the funding argmin/argmax theorem concretely). -/
def c5wInput : AggInput := fun ex =>
  match ex with
  | .OKX => ⟨[("BTC/USDT:USDT", tickAt 100)],
      [("BTC/USDT:USDT", ⟨some (-1), some 0, none⟩)]⟩
  | .BYBIT => ⟨[("BTC/USDT:USDT", tickAt 100)],
      [("BTC/USDT:USDT", ⟨some 2, some 0, none⟩)]⟩
  | .BINANCE => ⟨[("BTC/USDT:USDT", tickAt 100)],
      [("BTC/USDT:USDT", ⟨some 1, some 0, none⟩)]⟩
  | _ => emptyData

/-- OKX stores a funding record with rate 0 and funding time 123;
BYBIT has no funding record. -/
def c10Input : AggInput := fun ex =>
  match ex with
  | .OKX => ⟨[("BTC/USDT:USDT", tickAt 100)],
      [("BTC/USDT:USDT", ⟨some 0, some 123, none⟩)]⟩
  | .BYBIT => ⟨[("BTC/USDT:USDT", tickAt 100)], []⟩
  | _ => emptyData

def c3Fund : Exchange → FMap := fun _ => []

/-- A cycle in which OKX and BYBIT deliver BTC tickers and the Hyperliquid
transport fails. -/
def c3Transport : Exchange → Except String (List (String × Ticker)) := fun ex =>
  match ex with
  | .OKX => .ok [("BTC/USDT:USDT", tickAt 100)]
  | .BYBIT => .ok [("BTC/USDT:USDT", tickAt 101)]
  | .HYPERLIQUID => .error "socket hang up"
  | _ => .ok []

/-- The same cycle except that the Hyperliquid transport succeeds with no
data. -/
def c3TransportHyperOk : Exchange → Except String (List (String × Ticker)) := fun ex =>
  match ex with
  | .OKX => .ok [("BTC/USDT:USDT", tickAt 100)]
  | .BYBIT => .ok [("BTC/USDT:USDT", tickAt 101)]
  | .HYPERLIQUID => .ok []
  | _ => .ok []

/-! ### Properties of the head-seeded `reduce` -/

theorem pickMinFold_spec {α : Type} (key : α → ℚ) :
    ∀ (t : List α) (acc : α),
      ∃ l₁ l₂,
        acc :: t = l₁ ++ pickMinFold key acc t :: l₂ ∧
          (∀ x ∈ l₁, key (pickMinFold key acc t) < key x) ∧
          ∀ x ∈ acc :: t, key (pickMinFold key acc t) ≤ key x := by
  intro t
  induction t with
  | nil =>
    intro acc
    refine ⟨[], [], rfl, fun x hx => absurd hx (List.not_mem_nil x), fun x hx => ?_⟩
    have hx' : x = acc := List.mem_singleton.mp hx
    subst hx'
    exact le_refl _
  | cons b t ih =>
    intro acc
    by_cases hab : key acc ≤ key b
    · have hfold : pickMinFold key acc (b :: t) = pickMinFold key acc t := by
        rw [show pickMinFold key acc (b :: t)
            = pickMinFold key (if key acc ≤ key b then acc else b) t from rfl, if_pos hab]
      rw [hfold]
      obtain ⟨l₁, l₂, hdec, hstrict, hmin⟩ := ih acc
      generalize hgen : pickMinFold key acc t = m at hdec hstrict hmin ⊢
      cases l₁ with
      | nil =>
        simp only [List.nil_append] at hdec
        injection hdec with h1 h2
        subst h1
        refine ⟨[], b :: t, rfl, fun x hx => absurd hx (List.not_mem_nil x),
          fun x hx => ?_⟩
        rcases List.mem_cons.mp hx with rfl | hx'
        · exact le_refl _
        · rcases List.mem_cons.mp hx' with rfl | hx''
          · exact hab
          · exact hmin x (List.mem_cons_of_mem _ hx'')
      | cons a l₁' =>
        simp only [List.cons_append] at hdec
        injection hdec with h1 h2
        subst h2
        subst h1
        refine ⟨acc :: b :: l₁', l₂, rfl, fun x hx => ?_, fun x hx => ?_⟩
        · rcases List.mem_cons.mp hx with rfl | hx'
          · exact hstrict x (List.mem_cons_self _ _)
          · rcases List.mem_cons.mp hx' with rfl | hx''
            · exact lt_of_lt_of_le (hstrict acc (List.mem_cons_self _ _)) hab
            · exact hstrict x (List.mem_cons_of_mem _ hx'')
        · rcases List.mem_cons.mp hx with rfl | hx'
          · exact hmin x (List.mem_cons_self _ _)
          · rcases List.mem_cons.mp hx' with rfl | hx''
            · exact le_trans (le_of_lt (hstrict acc (List.mem_cons_self _ _))) hab
            · exact hmin x (List.mem_cons_of_mem _ hx'')
    · have hba : key b < key acc := lt_of_not_le hab
      have hfold : pickMinFold key acc (b :: t) = pickMinFold key b t := by
        rw [show pickMinFold key acc (b :: t)
            = pickMinFold key (if key acc ≤ key b then acc else b) t from rfl, if_neg hab]
      rw [hfold]
      obtain ⟨l₁, l₂, hdec, hstrict, hmin⟩ := ih b
      generalize hgen : pickMinFold key b t = m at hdec hstrict hmin ⊢
      cases l₁ with
      | nil =>
        simp only [List.nil_append] at hdec
        injection hdec with h1 h2
        subst h1
        subst h2
        refine ⟨[acc], t, rfl, fun x hx => ?_, fun x hx => ?_⟩
        · have hx' : x = acc := List.mem_singleton.mp hx
          subst hx'
          exact hba
        · rcases List.mem_cons.mp hx with rfl | hx'
          · exact le_of_lt hba
          · exact hmin x hx'
      | cons a l₁' =>
        simp only [List.cons_append] at hdec
        injection hdec with h1 h2
        subst h2
        subst h1
        refine ⟨acc :: b :: l₁', l₂, rfl, fun x hx => ?_, fun x hx => ?_⟩
        · rcases List.mem_cons.mp hx with rfl | hx'
          · exact lt_trans (hstrict b (List.mem_cons_self _ _)) hba
          · rcases List.mem_cons.mp hx' with rfl | hx''
            · exact hstrict x (List.mem_cons_self _ _)
            · exact hstrict x (List.mem_cons_of_mem _ hx'')
        · rcases List.mem_cons.mp hx with rfl | hx'
          · exact le_of_lt (lt_trans (hstrict b (List.mem_cons_self _ _)) hba)
          · exact hmin x hx'

/-- The head-seeded `reduce` with `<=` returns the first element attaining
the minimum of `key`: everything before it is strictly larger, everything in
the list is at least it. -/
theorem pickMin_spec {α : Type} (key : α → ℚ) (l : List α) (m : α)
    (h : pickMin key l = some m) :
    ∃ l₁ l₂, l = l₁ ++ m :: l₂ ∧ (∀ x ∈ l₁, key m < key x) ∧ ∀ x ∈ l, key m ≤ key x := by
  match l, h with
  | h₀ :: t, h =>
    have hm : pickMinFold key h₀ t = m := by simpa [pickMin] using h
    obtain ⟨l₁, l₂, hdec, hstrict, hmin⟩ := pickMinFold_spec key t h₀
    rw [hm] at hdec hstrict hmin
    exact ⟨l₁, l₂, hdec, hstrict, hmin⟩

theorem pickMaxFold_eq_min {α : Type} (key : α → ℚ) (l : List α) :
    ∀ acc : α, pickMaxFold key acc l = pickMinFold (fun x => -key x) acc l := by
  induction l with
  | nil => intro acc; rfl
  | cons b t ih =>
    intro acc
    show pickMaxFold key (if key acc ≥ key b then acc else b) t
        = pickMinFold (fun x => -key x) (if -key acc ≤ -key b then acc else b) t
    rw [show (if -key acc ≤ -key b then acc else b) = (if key acc ≥ key b then acc else b)
        from if_congr neg_le_neg_iff rfl rfl]
    exact ih _

/-- The head-seeded `reduce` with `>=` returns the first element attaining
the maximum of `key`. -/
theorem pickMax_spec {α : Type} (key : α → ℚ) (l : List α) (m : α)
    (h : pickMax key l = some m) :
    ∃ l₁ l₂, l = l₁ ++ m :: l₂ ∧ (∀ x ∈ l₁, key x < key m) ∧ ∀ x ∈ l, key x ≤ key m := by
  have h' : pickMin (fun x => -key x) l = some m := by
    cases l with
    | nil => simp [pickMax] at h
    | cons a t => simpa [pickMax, pickMin, pickMaxFold_eq_min] using h
  obtain ⟨l₁, l₂, hdec, hstrict, hmin⟩ := pickMin_spec _ l m h'
  refine ⟨l₁, l₂, hdec, fun x hx => ?_, fun x hx => ?_⟩
  · exact neg_lt_neg_iff.mp (hstrict x hx)
  · exact neg_le_neg_iff.mp (hmin x hx)

theorem pickMin_isSome {α : Type} (key : α → ℚ) (l : List α) (h : l ≠ []) :
    ∃ m, pickMin key l = some m := by
  cases l with
  | nil => exact absurd rfl h
  | cons a t => exact ⟨pickMinFold key a t, rfl⟩

theorem pickMax_isSome {α : Type} (key : α → ℚ) (l : List α) (h : l ≠ []) :
    ∃ m, pickMax key l = some m := by
  cases l with
  | nil => exact absurd rfl h
  | cons a t => exact ⟨pickMaxFold key a t, rfl⟩


theorem assocSet_cons {κ β : Type} [DecidableEq κ] (q : κ × β) (rest : List (κ × β))
    (k : κ) (v : β) :
    assocSet (q :: rest) k v
      = if q.1 = k then (q.1, v) :: rest else q :: assocSet rest k v := by
  obtain ⟨k', v'⟩ := q
  by_cases hk : k' = k
  · simp [assocSet, hk]
  · simp [assocSet, hk]

theorem mem_assocSet {κ β : Type} [DecidableEq κ] :
    ∀ (m : List (κ × β)) (k : κ) (v : β) (p : κ × β),
      p ∈ assocSet m k v → p = (k, v) ∨ p ∈ m := by
  intro m
  induction m with
  | nil =>
    intro k v p hp
    exact Or.inl (List.mem_singleton.mp hp)
  | cons q rest ih =>
    intro k v p hp
    rw [assocSet_cons] at hp
    by_cases hk : q.1 = k
    · rw [if_pos hk] at hp
      rcases List.mem_cons.mp hp with rfl | hp'
      · exact Or.inl (by rw [hk])
      · exact Or.inr (List.mem_cons_of_mem _ hp')
    · rw [if_neg hk] at hp
      rcases List.mem_cons.mp hp with rfl | hp'
      · exact Or.inr (List.mem_cons_self _ _)
      · rcases ih k v p hp' with h | h
        · exact Or.inl h
        · exact Or.inr (List.mem_cons_of_mem _ h)

theorem keys_assocSet_mem {κ β : Type} [DecidableEq κ] :
    ∀ (m : List (κ × β)) (k : κ) (v : β), k ∈ m.map Prod.fst →
      (assocSet m k v).map Prod.fst = m.map Prod.fst := by
  intro m
  induction m with
  | nil => intro k v h; simp at h
  | cons q rest ih =>
    intro k v h
    rw [assocSet_cons]
    by_cases hk : q.1 = k
    · rw [if_pos hk]; simp
    · rw [if_neg hk]
      rw [List.map_cons] at h
      rcases List.mem_cons.mp h with h' | h'
      · exact absurd h'.symm hk
      · simp [ih k v h']

theorem keys_assocSet_not_mem {κ β : Type} [DecidableEq κ] :
    ∀ (m : List (κ × β)) (k : κ) (v : β), k ∉ m.map Prod.fst →
      (assocSet m k v).map Prod.fst = m.map Prod.fst ++ [k] := by
  intro m
  induction m with
  | nil => intro k v _; rfl
  | cons q rest ih =>
    intro k v h
    have hk : q.1 ≠ k := by
      intro hq; exact h (by simp [hq])
    have h' : k ∉ rest.map Prod.fst := by
      intro hmem; exact h (by simp [hmem])
    rw [assocSet_cons, if_neg hk]
    simp [ih k v h']

theorem sublist_of_append_singleton {α : Type} {l pre : List α} {ex : α}
    (h : List.Sublist l (pre ++ [ex])) (hex : ex ∉ l) : List.Sublist l pre := by
  obtain ⟨a, b, rfl, ha, hb⟩ := List.sublist_append_iff.mp h
  rcases List.sublist_singleton.mp hb with rfl | rfl
  · simpa using ha
  · exact absurd (by simp) hex

theorem insertToken_cons (t : Token) (rest : List Token) (key : String)
    (ex : Exchange) (e : Entry) :
    insertToken (t :: rest) key ex e
      = if t.symbol = key then { t with exchanges := assocSet t.exchanges ex e } :: rest
        else t :: insertToken rest key ex e := by
  by_cases hsym : t.symbol = key
  · simp [insertToken, hsym]
  · simp [insertToken, hsym]

theorem TDOk_insertToken {input : AggInput} {pre : List Exchange} {ex : Exchange}
    {key : String} {e : Entry} :
    ∀ {td : List Token}, TDOk input (pre ++ [ex]) td → EntryOk input key (ex, e) →
      TDOk input (pre ++ [ex]) (insertToken td key ex e) := by
  intro td
  induction td with
  | nil =>
    intro _ hq tok htok
    have h' : tok = ⟨key, [(ex, e)]⟩ := List.mem_singleton.mp htok
    subst h'
    refine ⟨fun p hp => ?_, ?_⟩
    · have hp' : p = (ex, e) := List.mem_singleton.mp hp
      subst hp'
      exact hq
    · exact (List.nil_sublist pre).append (List.Sublist.refl [ex])
  | cons t rest ih =>
    intro h hq tok htok
    rw [insertToken_cons] at htok
    by_cases hsym : t.symbol = key
    · rw [if_pos hsym] at htok
      rcases List.mem_cons.mp htok with rfl | htok'
      · refine ⟨fun p hp => ?_, ?_⟩
        · rcases mem_assocSet _ _ _ _ hp with rfl | hp'
          · show EntryOk input t.symbol (ex, e)
            rw [hsym]
            exact hq
          · exact (h t (List.mem_cons_self _ _)).1 p hp'
        · show List.Sublist ((assocSet t.exchanges ex e).map Prod.fst) (pre ++ [ex])
          rcases Classical.em (ex ∈ t.exchanges.map Prod.fst) with hmem | hmem
          · rw [keys_assocSet_mem _ _ _ hmem]
            exact (h t (List.mem_cons_self _ _)).2
          · rw [keys_assocSet_not_mem _ _ _ hmem]
            exact (sublist_of_append_singleton (h t (List.mem_cons_self _ _)).2
              hmem).append (List.Sublist.refl [ex])
      · exact h tok (List.mem_cons_of_mem _ htok')
    · rw [if_neg hsym] at htok
      rcases List.mem_cons.mp htok with rfl | htok'
      · exact h tok (List.mem_cons_self _ _)
      · exact ih (fun tk htk => h tk (List.mem_cons_of_mem _ htk)) hq tok htok'

theorem TDOk_collectTicker {input : AggInput} {pre : List Exchange} {ex : Exchange}
    {td : List Token} {pr : String × Ticker}
    (h : TDOk input (pre ++ [ex]) td) (hmem : pr ∈ (input ex).tickers) :
    TDOk input (pre ++ [ex]) (collectTicker ex (input ex).funding td pr) := by
  show TDOk input (pre ++ [ex])
    (match getMidPrice pr.2 with
     | none => td
     | some price =>
       if price ≤ 0 then td
       else insertToken td (baseOf pr.1) ex (mkEntry (input ex).funding pr.1 pr.2 price))
  cases hg : getMidPrice pr.2 with
  | none => exact h
  | some price =>
    show TDOk input (pre ++ [ex])
      (if price ≤ 0 then td
       else insertToken td (baseOf pr.1) ex (mkEntry (input ex).funding pr.1 pr.2 price))
    by_cases hle : price ≤ 0
    · rw [if_pos hle]; exact h
    · rw [if_neg hle]
      exact TDOk_insertToken h ⟨not_le.mp hle, pr.1, pr.2, hmem, hg, rfl⟩

theorem TDOk_addExchange {input : AggInput} {pre : List Exchange} {td : List Token}
    {ex : Exchange} (h : TDOk input pre td) :
    TDOk input (pre ++ [ex]) (addExchange input td ex) := by
  have hmono : TDOk input (pre ++ [ex]) td := fun tok htok =>
    ⟨(h tok htok).1, (h tok htok).2.trans (List.sublist_append_left _ _)⟩
  show TDOk input (pre ++ [ex])
    ((input ex).tickers.foldl (collectTicker ex (input ex).funding) td)
  suffices H : ∀ l : List (String × Ticker), (∀ x ∈ l, x ∈ (input ex).tickers) →
      ∀ td₀, TDOk input (pre ++ [ex]) td₀ →
        TDOk input (pre ++ [ex]) (l.foldl (collectTicker ex (input ex).funding) td₀) by
    exact H _ (fun x hx => hx) td hmono
  intro l
  induction l with
  | nil => intro _ td₀ h₀; exact h₀
  | cons p l ih =>
    intro hsub td₀ h₀
    exact ih (fun x hx => hsub x (List.mem_cons_of_mem _ hx)) _
      (TDOk_collectTicker h₀ (hsub p (List.mem_cons_self _ _)))

theorem TDOk_buildTokenDataOn (input : AggInput) :
    ∀ (exs : List Exchange) (pre : List Exchange) (td : List Token),
      TDOk input pre td →
        TDOk input (pre ++ exs) (exs.foldl (addExchange input) td) := by
  intro exs
  induction exs with
  | nil => intro pre td h; simpa using h
  | cons ex exs ih =>
    intro pre td h
    have h2 := ih (pre ++ [ex]) _ (TDOk_addExchange h)
    simpa [List.append_assoc] using h2

/-- Every token produced by the six collection loops is well formed. -/
theorem buildTokenData_ok (input : AggInput) :
    TDOk input exchangeOrder (buildTokenData input) := by
  have h := TDOk_buildTokenDataOn input exchangeOrder [] []
    (fun tok htok => absurd htok (List.not_mem_nil _))
  simpa [buildTokenData, buildTokenDataOn] using h

theorem fundingEntries_eq (exs : List (Exchange × Entry)) :
    fundingEntries exs = exs :=
  List.filter_eq_self.mpr fun _ _ => rfl

theorem priceEntries_eq_of_pos {exs : List (Exchange × Entry)}
    (h : ∀ p ∈ exs, 0 < p.2.price) : priceEntries exs = exs :=
  List.filter_eq_self.mpr fun p hp => by
    have h0 := h p hp
    simp [ne_of_gt h0, h0]

theorem mem_aggregate {input : AggInput} {opp : Opp} (h : opp ∈ aggregate input) :
    ∃ tok, tok ∈ buildTokenData input ∧ buildOpp tok = some opp := by
  simpa [aggregate, aggregateOn, buildTokenData, List.mem_filterMap] using h

theorem buildOpp_some {tok : Token} {opp : Opp} (h : buildOpp tok = some opp) :
    opp.symbol = tok.symbol ∧ opp.exchanges = tok.exchanges ∧
    2 ≤ tok.exchanges.length ∧ 2 ≤ (priceEntries tok.exchanges).length ∧
    opp.longExchange
      = (pickMin (fun p => p.2.price) (priceEntries tok.exchanges)).map Prod.fst ∧
    opp.shortExchange
      = (pickMax (fun p => p.2.price) (priceEntries tok.exchanges)).map Prod.fst ∧
    opp.longFunding
      = (pickMin (fun p => p.2.fundingRate) (fundingEntries tok.exchanges)).map Prod.fst ∧
    opp.shortFunding
      = (pickMax (fun p => p.2.fundingRate) (fundingEntries tok.exchanges)).map Prod.fst := by
  simp only [buildOpp] at h
  split at h
  · exact absurd h (by simp)
  · split at h
    · exact absurd h (by simp)
    · rename_i h1 h2
      injection h with h'
      subst h'
      have hlen : 2 ≤ tok.exchanges.length := not_lt.mp h1
      have hfe : (fundingEntries tok.exchanges).length ≠ 0 := by
        rw [fundingEntries_eq]
        omega
      refine ⟨rfl, rfl, hlen, not_lt.mp h2, rfl, rfl, ?_, ?_⟩
      · show (if (fundingEntries tok.exchanges).length ≠ 0
            then pickMin (fun p => p.2.fundingRate) (fundingEntries tok.exchanges)
            else none).map Prod.fst = _
        rw [if_pos hfe]
      · show (if (fundingEntries tok.exchanges).length ≠ 0
            then pickMax (fun p => p.2.fundingRate) (fundingEntries tok.exchanges)
            else none).map Prod.fst = _
        rw [if_pos hfe]

/-! ### Claim theorems -/

/-- C9: for every pair of counter snapshots (previous baseline, current) and
every exchange and category, each component of the windowed delta reported by
the periodic summary (success, errors, skipped, and their total) is ≥ 0, even
when a current counter is smaller than the baseline counter (counter reset
between snapshots). -/
theorem C9_windowed_delta_nonneg (curr prev : List (String × Counter)) :
    0 ≤ (calcTotals curr prev).success ∧ 0 ≤ (calcTotals curr prev).errors ∧
      0 ≤ (calcTotals curr prev).skipped ∧ 0 ≤ (calcTotals curr prev).total := by
  have key : ∀ (l : List (String × Counter)) (acc : ℤ × ℤ × ℤ),
      0 ≤ acc.1 → 0 ≤ acc.2.1 → 0 ≤ acc.2.2 →
        0 ≤ (l.foldl (calcStep prev) acc).1 ∧
          0 ≤ (l.foldl (calcStep prev) acc).2.1 ∧
          0 ≤ (l.foldl (calcStep prev) acc).2.2 := by
    intro l
    induction l with
    | nil => intro acc h1 h2 h3; exact ⟨h1, h2, h3⟩
    | cons p l ih =>
      intro acc h1 h2 h3
      exact ih _ (add_nonneg h1 (le_max_left _ _)) (add_nonneg h2 (le_max_left _ _))
        (add_nonneg h3 (le_max_left _ _))
  obtain ⟨h1, h2, h3⟩ := key curr (0, 0, 0) le_rfl le_rfl le_rfl
  exact ⟨h1, h2, h3, add_nonneg (add_nonneg h1 h2) h3⟩

/-- C4 counterexample: at reconnect attempt 3 the OKX session schedules a
delay of 15000 ms, strictly below the claimed lower bound
`base · 2^(n−1) = 5000 · 2^2 = 20000` — so the delay cannot lie in
`[base·2^(n−1), base·2^(n−1) + jitterMax]` for any `jitterMax ≥ 0`. -/
theorem C4_counterexample :
    okxHandleReconnect 2 = some (3, 15000) ∧ (15000 : ℚ) < 5000 * 2 ^ (3 - 1) := by
  constructor
  · simp only [okxHandleReconnect]
    norm_num
  · norm_num

/-- C4 (amended): reconnect backoff is linear, not exponential, and carries
no jitter: for attempt n (1 ≤ n ≤ 5) the OKX session schedules exactly
`5000·n` ms and the Binance session `5000·n` ms scaled by its error class
(×2 capped at 60 s for DNS/refused errors, ×1.5 capped at 30 s for server
errors, unscaled otherwise); once the attempt counter reaches
`maxReconnectAttempts = 5`, neither session schedules any further automatic
reconnect. -/
theorem C4_linear_backoff :
    (∀ n : ℕ, 1 ≤ n → n ≤ 5 → okxHandleReconnect (n - 1) = some (n, 5000 * (n : ℚ))) ∧
    (∀ attempts : ℕ, 5 ≤ attempts → okxHandleReconnect attempts = none) ∧
    (∀ (n : ℕ) (e : ErrType), 1 ≤ n → n ≤ 5 →
      binanceHandleReconnect (n - 1) e = some (n, binanceDelay n e)) ∧
    (∀ (attempts : ℕ) (e : ErrType), 5 ≤ attempts →
      binanceHandleReconnect attempts e = none) ∧
    (∀ n : ℕ, binanceDelay n .unknown = 5000 * (n : ℚ)) ∧
    (∀ n : ℕ, binanceDelay n .dnsError = min (5000 * (n : ℚ) * 2) 60000) ∧
    (∀ n : ℕ, binanceDelay n .serverError = min (5000 * (n : ℚ) * 1.5) 30000) := by
  refine ⟨?_, ?_, ?_, ?_, ?_, ?_, ?_⟩
  · intro n h1 h5
    have hn : ¬ 5 ≤ n - 1 := by omega
    have hn' : n - 1 + 1 = n := by omega
    simp only [okxHandleReconnect, if_neg hn]
    have hq : (5000 : ℚ) * (↑(n - 1) + 1) = 5000 * (n : ℚ) := by
      rw [Nat.cast_sub h1, Nat.cast_one]
      ring
    rw [hn', hq]
  · intro attempts h
    simp only [okxHandleReconnect, if_pos h]
  · intro n e h1 h5
    have hn : ¬ 5 ≤ n - 1 := by omega
    have hn' : n - 1 + 1 = n := by omega
    simp only [binanceHandleReconnect, if_neg hn, hn']
  · intro attempts e h
    simp only [binanceHandleReconnect, if_pos h]
  · intro n
    simp [binanceDelay]
  · intro n
    simp [binanceDelay]
  · intro n
    simp [binanceDelay]

theorem C4_linear_backoff_witness :
    okxHandleReconnect 2 = some (3, 5000 * 3) ∧
    binanceHandleReconnect 2 .unknown = some (3, binanceDelay 3 .unknown) ∧
    okxHandleReconnect 7 = none ∧ binanceHandleReconnect 7 .serverError = none :=
  ⟨C4_linear_backoff.1 3 (by norm_num) (by norm_num),
   C4_linear_backoff.2.2.1 3 .unknown (by norm_num) (by norm_num),
   C4_linear_backoff.2.1 7 (by norm_num),
   C4_linear_backoff.2.2.2.1 7 .serverError (by norm_num)⟩

/-- C8 counterexample: the OKX session schedules a reconnect (after 5000 ms)
even when the WebSocket close code is 1000, because its `close` handler
never inspects the code. -/
theorem C8_counterexample : okxHandleClose 1000 0 = some (1, 5000) := by
  simp only [okxHandleClose, okxHandleReconnect]
  norm_num

/-- C8 (amended): for the Binance session, close code 1000 schedules no
reconnect and any other close code schedules one (as long as the attempt cap
is not exhausted); the OKX session schedules a reconnect on every close
event regardless of the code (subject to its attempt cap), and the Backpack
session schedules one on every close with a constant 5000 ms delay and no
cap. -/
theorem C8_close_handling :
    (∀ attempts : ℕ, binanceHandleClose 1000 attempts = none) ∧
    (∀ (code attempts : ℕ), code ≠ 1000 → attempts < 5 →
      (binanceHandleClose code attempts).isSome = true) ∧
    (∀ (code attempts : ℕ), attempts < 5 → (okxHandleClose code attempts).isSome = true) ∧
    (∀ (code attempts : ℕ), 5 ≤ attempts →
      okxHandleClose code attempts = none ∧ binanceHandleClose code attempts = none) ∧
    (∀ code : ℕ, backpackHandleClose code = some 5000) := by
  refine ⟨?_, ?_, ?_, ?_, ?_⟩
  · intro attempts
    simp [binanceHandleClose]
  · intro code attempts hc hlt
    simp only [binanceHandleClose, if_pos hc, binanceHandleReconnect,
      if_neg (by omega : ¬ 5 ≤ attempts)]
    rfl
  · intro code attempts hlt
    show (okxHandleReconnect attempts).isSome = true
    simp only [okxHandleReconnect, if_neg (by omega : ¬ 5 ≤ attempts)]
    rfl
  · intro code attempts h5
    constructor
    · show okxHandleReconnect attempts = none
      simp only [okxHandleReconnect, if_pos h5]
    · by_cases hc : code ≠ 1000
      · simp only [binanceHandleClose, if_pos hc, binanceHandleReconnect, if_pos h5]
      · simp only [binanceHandleClose, if_neg hc]
  · intro code
    rfl

theorem C8_close_handling_witness :
    (binanceHandleClose 1006 0).isSome = true ∧
    (okxHandleClose 1000 0).isSome = true ∧
    okxHandleClose 1006 9 = none ∧ binanceHandleClose 1006 9 = none :=
  ⟨C8_close_handling.2.1 1006 0 (by norm_num) (by norm_num),
   C8_close_handling.2.2.1 1000 0 (by norm_num),
   (C8_close_handling.2.2.2.1 1006 9 (by norm_num)).1,
   (C8_close_handling.2.2.2.1 1006 9 (by norm_num)).2⟩

theorem bybitBuild_of_no_success :
    ∀ (l : List BybitItem), bybitSuccessCount l = 0 → ∀ m : FMap, l.foldl bybitStep m = m := by
  intro l
  induction l with
  | nil => intro _ m; rfl
  | cons i l ih =>
    intro hcount m
    have hpred : (i.fundingRate.isSome && i.nextFundingTime.isSome) = false := by
      by_contra hp
      have hp' : (i.fundingRate.isSome && i.nextFundingTime.isSome) = true := by
        revert hp; cases (i.fundingRate.isSome && i.nextFundingTime.isSome) <;> simp
      have : 0 < bybitSuccessCount (i :: l) := by
        simp [bybitSuccessCount, List.filter_cons, hp']
      omega
    have hcount' : bybitSuccessCount l = 0 := by
      have : bybitSuccessCount (i :: l) = bybitSuccessCount l := by
        simp [bybitSuccessCount, List.filter_cons, hpred]
      omega
    have hstep : bybitStep m i = m := by
      cases hr : i.fundingRate with
      | none => simp [bybitStep, hr]
      | some r =>
        cases ht : i.nextFundingTime with
        | none => simp [bybitStep, hr, ht]
        | some t =>
          exfalso
          rw [hr, ht] at hpred
          simp at hpred
    show l.foldl bybitStep (bybitStep m i) = m
    rw [hstep]
    exact ih hcount' m

/-- C1 (amended): the merge policies differ per exchange.  Backpack is gated
on success: a refresh cycle with zero successful records leaves the stored
funding map unchanged, and a cycle with at least one success replaces the
whole map with the newly built one.  Bybit instead replaces (clears and
rebuilds) the whole map on every structurally valid response — even one with
zero successful records, which wipes the map — and leaves the map untouched
only when the request fails or the response is structurally invalid. -/
theorem C1_merge_policy :
    (∀ (prev : FMap) (markets : List (String × Option (List BackpackRaw))),
      backpackSuccessCount markets = 0 → backpackFetchFundingInfo prev markets = prev) ∧
    (∀ (prev : FMap) (markets : List (String × Option (List BackpackRaw))),
      0 < backpackSuccessCount markets →
        backpackFetchFundingInfo prev markets = backpackNewMap markets) ∧
    (∀ (prev : FMap) (list : List BybitItem),
      bybitFetchFundingInfo prev (some list) = bybitBuild list) ∧
    (∀ (prev : FMap) (list : List BybitItem),
      bybitSuccessCount list = 0 → bybitFetchFundingInfo prev (some list) = []) ∧
    (∀ prev : FMap, bybitFetchFundingInfo prev none = prev) := by
  refine ⟨?_, ?_, ?_, ?_, ?_⟩
  · intro prev markets h
    simp only [backpackFetchFundingInfo, if_neg (by omega : ¬ 0 < backpackSuccessCount markets)]
  · intro prev markets h
    simp only [backpackFetchFundingInfo, if_pos h]
  · intro prev list
    rfl
  · intro prev list h
    show bybitBuild list = []
    exact bybitBuild_of_no_success list h []
  · intro prev
    rfl

/-- C1 counterexample: a Bybit refresh cycle whose response is structurally
valid but contains zero successful records (here: an empty list) replaces
the previously stored funding map with the empty map instead of leaving it
unchanged. -/
theorem C1_counterexample :
    bybitSuccessCount [] = 0 ∧
    bybitFetchFundingInfo [("BTC/USDT:USDT", ⟨some 1, some 2, some 8⟩)] (some []) = [] ∧
    ([] : FMap) ≠ [("BTC/USDT:USDT", ⟨some 1, some 2, some 8⟩)] := by
  refine ⟨rfl, rfl, ?_⟩
  intro h
  exact List.noConfusion h

theorem C1_merge_policy_witness :
    backpackFetchFundingInfo [("A", ⟨some 1, none, none⟩)] [("BTC_USDC_PERP", none)]
      = [("A", ⟨some 1, none, none⟩)] ∧
    backpackFetchFundingInfo [] [("BTC_USDC_PERP", some [⟨some 2, some 3, none, none⟩])]
      = backpackNewMap [("BTC_USDC_PERP", some [⟨some 2, some 3, none, none⟩])] ∧
    bybitFetchFundingInfo [("A", ⟨some 1, none, none⟩)] (some []) = [] ∧
    bybitFetchFundingInfo [("A", ⟨some 1, none, none⟩)] none = [("A", ⟨some 1, none, none⟩)] :=
  ⟨C1_merge_policy.1 _ _ (by decide),
   C1_merge_policy.2.1 _ _ (by decide),
   C1_merge_policy.2.2.2.1 _ _ rfl,
   C1_merge_policy.2.2.2.2 _⟩

/-- C2: for every ticker snapshot, the usable price computed by the
aggregation step equals `(bid+ask)/2` when bid and ask are both finite and
strictly positive; otherwise it equals `last` when `last` is finite and
strictly positive; otherwise the snapshot contributes no entry to the
aggregation (in particular: bid=100, ask=102 gives 101; bid=0, ask=0,
last=50 gives 50; bid=0, ask=0, last=0 is excluded). -/
theorem C2_usable_price :
    (∀ (t : Ticker) (b a : ℚ), t.bid = some b → t.ask = some a → 0 < b → 0 < a →
      getMidPrice t = some ((b + a) / 2)) ∧
    (∀ (t : Ticker) (l : ℚ),
      (∀ b a, t.bid = some b → t.ask = some a → ¬(0 < b ∧ 0 < a)) →
      t.last = some l → 0 < l → getMidPrice t = some l) ∧
    (∀ t : Ticker,
      (∀ b a, t.bid = some b → t.ask = some a → ¬(0 < b ∧ 0 < a)) →
      (∀ l, t.last = some l → ¬0 < l) →
      getMidPrice t = none) ∧
    (∀ (ex : Exchange) (fmap : FMap) (td : List Token) (sym : String) (t : Ticker),
      getMidPrice t = none → collectTicker ex fmap td (sym, t) = td) ∧
    getMidPrice ⟨some 100, some 102, some 0, none⟩ = some 101 ∧
    getMidPrice ⟨some 0, some 0, some 50, none⟩ = some 50 ∧
    getMidPrice ⟨some 0, some 0, some 0, none⟩ = none := by
  refine ⟨?_, ?_, ?_, ?_, ?_, ?_, ?_⟩
  · intro t b a hb ha h1 h2
    obtain ⟨bid, ask, last, vol⟩ := t
    simp only at hb ha
    subst hb
    subst ha
    show (if 0 < b ∧ 0 < a then some ((b + a) / 2) else lastFallback _)
      = some ((b + a) / 2)
    rw [if_pos ⟨h1, h2⟩]
  · intro t l hno hlast hl
    obtain ⟨bid, ask, last, vol⟩ := t
    simp only at hno hlast
    subst hlast
    cases bid with
    | none =>
      show (if 0 < l then some l else none) = some l
      rw [if_pos hl]
    | some b =>
      cases ask with
      | none =>
        show (if 0 < l then some l else none) = some l
        rw [if_pos hl]
      | some a =>
        show (if 0 < b ∧ 0 < a then some ((b + a) / 2) else lastFallback _) = some l
        rw [if_neg (hno b a rfl rfl)]
        show (if 0 < l then some l else none) = some l
        rw [if_pos hl]
  · intro t hno hlast
    obtain ⟨bid, ask, last, vol⟩ := t
    simp only at hno hlast
    have hLF : lastFallback ⟨bid, ask, last, vol⟩ = none := by
      cases last with
      | none => rfl
      | some l =>
        show (if 0 < l then some l else none) = none
        rw [if_neg (hlast l rfl)]
    cases bid with
    | none => exact hLF
    | some b =>
      cases ask with
      | none => exact hLF
      | some a =>
        show (if 0 < b ∧ 0 < a then some ((b + a) / 2) else lastFallback _) = none
        rw [if_neg (hno b a rfl rfl)]
        exact hLF
  · intro ex fmap td sym t hnone
    show (match getMidPrice t with
      | none => td
      | some price =>
        if price ≤ 0 then td
        else insertToken td (baseOf sym) ex (mkEntry fmap sym t price)) = td
    rw [hnone]
  · show (if (0 : ℚ) < 100 ∧ (0 : ℚ) < 102 then some (((100 : ℚ) + 102) / 2)
      else lastFallback ⟨some 100, some 102, some 0, none⟩) = some 101
    rw [if_pos ⟨by norm_num, by norm_num⟩]
    norm_num
  · show (if (0 : ℚ) < 0 ∧ (0 : ℚ) < 0 then some (((0 : ℚ) + 0) / 2)
      else lastFallback ⟨some 0, some 0, some 50, none⟩) = some 50
    rw [if_neg (by norm_num)]
    show (if (0 : ℚ) < 50 then some (50 : ℚ) else none) = some 50
    rw [if_pos (by norm_num)]
  · show (if (0 : ℚ) < 0 ∧ (0 : ℚ) < 0 then some (((0 : ℚ) + 0) / 2)
      else lastFallback ⟨some 0, some 0, some 0, none⟩) = none
    rw [if_neg (by norm_num)]
    show (if (0 : ℚ) < 0 then some (0 : ℚ) else none) = none
    rw [if_neg (by norm_num)]

theorem C2_usable_price_witness :
    getMidPrice ⟨some 3, some 5, some 9, none⟩ = some ((3 + 5) / 2) ∧
    getMidPrice ⟨some 0, some 0, some 7, none⟩ = some 7 ∧
    getMidPrice ⟨some 0, some 0, some 0, none⟩ = none ∧
    collectTicker .OKX [] [] ("X", ⟨some 0, some 0, some 0, none⟩) = [] := by
  have hno : ∀ b a : ℚ, (⟨some 0, some 0, some 0, none⟩ : Ticker).bid = some b →
      (⟨some 0, some 0, some 0, none⟩ : Ticker).ask = some a → ¬(0 < b ∧ 0 < a) := by
    intro b a hb ha
    simp only at hb ha
    injection hb with hb'
    injection ha with ha'
    subst hb'
    subst ha'
    norm_num
  have hno7 : ∀ b a : ℚ, (⟨some 0, some 0, some 7, none⟩ : Ticker).bid = some b →
      (⟨some 0, some 0, some 7, none⟩ : Ticker).ask = some a → ¬(0 < b ∧ 0 < a) := by
    intro b a hb ha
    simp only at hb ha
    injection hb with hb'
    injection ha with ha'
    subst hb'
    subst ha'
    norm_num
  have hlast0 : ∀ l : ℚ, (⟨some 0, some 0, some 0, none⟩ : Ticker).last = some l →
      ¬ 0 < l := by
    intro l hl
    simp only at hl
    injection hl with hl'
    subst hl'
    norm_num
  have hmid0 : getMidPrice ⟨some 0, some 0, some 0, none⟩ = none :=
    C2_usable_price.2.2.1 ⟨some 0, some 0, some 0, none⟩ hno hlast0
  exact ⟨C2_usable_price.1 _ 3 5 rfl rfl (by norm_num) (by norm_num),
    C2_usable_price.2.1 _ 7 hno7 rfl (by norm_num),
    hmid0,
    C2_usable_price.2.2.2.1 .OKX [] [] "X" _ hmid0⟩

/-- C3 counterexample: a Hyperliquid ticker-fetch error rejects the joint
`Promise.all`, so the whole aggregation cycle aborts — it publishes nothing
(the previous opportunity list, here `[]`, is kept), although the remaining
exchanges' data alone (same cycle with Hyperliquid merely empty) yields one
opportunity for a base asset Hyperliquid does not even carry. -/
theorem C3_counterexample :
    mainCycle c3Transport c3Fund [] = [] ∧
    (aggregate (mkCycleInput c3TransportHyperOk c3Fund)).length = 1 := by
  constructor
  · rfl
  · norm_num [aggregate, aggregateOn, buildTokenDataOn, exchangeOrder, addExchange,
      collectTicker, getMidPrice, lastFallback, tickAt, mkEntry, jsOr, baseOf, insertToken,
      assocSet, buildOpp, priceEntries, fundingEntries, List.filter, pickMin, pickMax,
      pickMinFold, pickMaxFold, mkCycleInput, c3TransportHyperOk, c3Fund, connectorTickers,
      exceptTickers, emptyData, List.filterMap, List.foldl, List.takeWhile]
    decide

/-- C3 (amended): an error while reading the ticker data of OKX, Bybit,
Binance, Backpack, or Edgex is absorbed at the connector boundary (their
`fetchTickers` resolves with an empty/cached map), the cycle completes, and
an exchange contributing no tickers does not affect the aggregation of the
remaining exchanges.  A Hyperliquid ticker-fetch error, however, is rethrown
by its connector; it rejects the joint `Promise.all` and aborts the whole
cycle — the previous opportunity list stays published.  In both cases the
cycle function returns normally: no connector error propagates as an
exception out of the aggregation engine. -/
theorem C3_failure_isolation :
    (∀ (ex : Exchange) (msg : String), ex ≠ .HYPERLIQUID →
      connectorTickers ex (.error msg) = .ok []) ∧
    (∀ (transport : Exchange → Except String (List (String × Ticker)))
        (fund : Exchange → FMap) (prevOpps : List Opp),
      exceptOk (transport .HYPERLIQUID) = true →
        mainCycle transport fund prevOpps = aggregate (mkCycleInput transport fund)) ∧
    (∀ (transport : Exchange → Except String (List (String × Ticker)))
        (fund : Exchange → FMap) (prevOpps : List Opp) (msg : String),
      transport .HYPERLIQUID = .error msg → mainCycle transport fund prevOpps = prevOpps) ∧
    (∀ (input : AggInput) (ex : Exchange) (exs : List Exchange),
      (input ex).tickers = [] →
        aggregateOn exs input = aggregateOn (exs.erase ex) input) := by
  have hok : ∀ (ex : Exchange) (r : Except String (List (String × Ticker))),
      ex ≠ .HYPERLIQUID → exceptOk (connectorTickers ex r) = true := by
    intro ex r hne
    cases ex <;> first
      | (cases r <;> rfl)
      | exact absurd rfl hne
  have hcon : ∀ r : Except String (List (String × Ticker)),
      connectorTickers .HYPERLIQUID r = r := by
    intro r
    cases r <;> rfl
  refine ⟨?_, ?_, ?_, ?_⟩
  · intro ex msg hne
    cases ex <;> first | rfl | exact absurd rfl hne
  · intro transport fund prev h
    have h1 := hok .OKX (transport .OKX) (by decide)
    have h2 := hok .BYBIT (transport .BYBIT) (by decide)
    have h3 := hok .BINANCE (transport .BINANCE) (by decide)
    have h4 := hok .BACKPACK (transport .BACKPACK) (by decide)
    have h5 := hok .EDGEX (transport .EDGEX) (by decide)
    have h6 : exceptOk (connectorTickers .HYPERLIQUID (transport .HYPERLIQUID)) = true := by
      rw [hcon]
      exact h
    have hall : (exchangeOrder.all
        fun ex => exceptOk (connectorTickers ex (transport ex))) = true := by
      simp [exchangeOrder, h1, h2, h3, h4, h5, h6]
    simp [mainCycle, hall]
  · intro transport fund prev msg herr
    have h6 : exceptOk (connectorTickers .HYPERLIQUID (transport .HYPERLIQUID)) = false := by
      rw [hcon, herr]
      rfl
    have hall : (exchangeOrder.all
        fun ex => exceptOk (connectorTickers ex (transport ex))) = false := by
      simp [exchangeOrder, h6]
    simp [mainCycle, hall]
  · intro input ex exs hemp
    have haddid : ∀ td, addExchange input td ex = td := by
      intro td
      show (input ex).tickers.foldl (collectTicker ex (input ex).funding) td = td
      rw [hemp]
      rfl
    suffices hb : ∀ (exs0 : List Exchange) (td : List Token),
        exs0.foldl (addExchange input) td = (exs0.erase ex).foldl (addExchange input) td by
      simp only [aggregateOn, buildTokenDataOn]
      rw [hb exs []]
    intro exs0
    induction exs0 with
    | nil => intro td; rfl
    | cons e exs0 ih =>
      intro td
      by_cases he : e = ex
      · subst he
        rw [List.erase_cons_head]
        show exs0.foldl (addExchange input) (addExchange input td e) = _
        rw [haddid]
      · rw [List.erase_cons_tail (by simp [he])]
        show exs0.foldl (addExchange input) (addExchange input td e)
          = (exs0.erase ex).foldl (addExchange input) (addExchange input td e)
        exact ih _

theorem C3_failure_isolation_witness :
    connectorTickers .OKX (.error "boom") = .ok [] ∧
    mainCycle c3TransportHyperOk c3Fund []
      = aggregate (mkCycleInput c3TransportHyperOk c3Fund) ∧
    mainCycle c3Transport c3Fund [] = [] ∧
    aggregateOn exchangeOrder (mkCycleInput c3Transport c3Fund)
      = aggregateOn (exchangeOrder.erase .HYPERLIQUID) (mkCycleInput c3Transport c3Fund) :=
  ⟨C3_failure_isolation.1 .OKX "boom" (by decide),
   C3_failure_isolation.2.1 c3TransportHyperOk c3Fund [] rfl,
   C3_failure_isolation.2.2.1 c3Transport c3Fund [] "socket hang up" rfl,
   C3_failure_isolation.2.2.2 (mkCycleInput c3Transport c3Fund) .HYPERLIQUID exchangeOrder rfl⟩

/-- C6: for every base asset in a published Opportunity, `longExchange` is
the argmin and `shortExchange` the argmax of the usable price over the
exchanges reporting one, ties broken by the fixed, deterministic exchange
iteration order (the winner is the first entry attaining the extremum, and
the entry order is a sublist of the fixed order OKX, BYBIT, BINANCE,
BACKPACK, EDGEX, HYPERLIQUID); in particular prices {A:100, B:105, C:102}
give `longExchange = A` and `shortExchange = B`. -/
theorem C6_price_argmin_argmax :
    (∀ (input : AggInput) (opp : Opp), opp ∈ aggregate input →
      ∃ m l₁ l₂, priceEntries opp.exchanges = l₁ ++ m :: l₂ ∧
        opp.longExchange = some m.1 ∧
        (∀ x ∈ l₁, m.2.price < x.2.price) ∧
        ∀ x ∈ priceEntries opp.exchanges, m.2.price ≤ x.2.price) ∧
    (∀ (input : AggInput) (opp : Opp), opp ∈ aggregate input →
      ∃ m l₁ l₂, priceEntries opp.exchanges = l₁ ++ m :: l₂ ∧
        opp.shortExchange = some m.1 ∧
        (∀ x ∈ l₁, x.2.price < m.2.price) ∧
        ∀ x ∈ priceEntries opp.exchanges, x.2.price ≤ m.2.price) ∧
    (∀ (input : AggInput) (opp : Opp), opp ∈ aggregate input →
      List.Sublist (opp.exchanges.map Prod.fst) exchangeOrder) ∧
    (aggregate c6Input).map (fun o => (o.longExchange, o.shortExchange))
      = [(some .OKX, some .BYBIT)] := by
  refine ⟨?_, ?_, ?_, ?_⟩
  · intro input opp h
    obtain ⟨tok, htok, hopp⟩ := mem_aggregate h
    obtain ⟨hsym, hexch, hlen, hpelen, hlong, hshort, hlf, hsf⟩ := buildOpp_some hopp
    have hne : priceEntries tok.exchanges ≠ [] := by
      intro hnil
      rw [hnil] at hpelen
      simp at hpelen
    obtain ⟨m, hm⟩ := pickMin_isSome (fun p => p.2.price) _ hne
    obtain ⟨l₁, l₂, hdec, hstrict, hmin⟩ := pickMin_spec _ _ _ hm
    refine ⟨m, l₁, l₂, ?_, ?_, hstrict, ?_⟩
    · rw [hexch]
      exact hdec
    · rw [hlong, hm]
      rfl
    · rw [hexch]
      exact hmin
  · intro input opp h
    obtain ⟨tok, htok, hopp⟩ := mem_aggregate h
    obtain ⟨hsym, hexch, hlen, hpelen, hlong, hshort, hlf, hsf⟩ := buildOpp_some hopp
    have hne : priceEntries tok.exchanges ≠ [] := by
      intro hnil
      rw [hnil] at hpelen
      simp at hpelen
    obtain ⟨m, hm⟩ := pickMax_isSome (fun p => p.2.price) _ hne
    obtain ⟨l₁, l₂, hdec, hstrict, hmax⟩ := pickMax_spec _ _ _ hm
    refine ⟨m, l₁, l₂, ?_, ?_, hstrict, ?_⟩
    · rw [hexch]
      exact hdec
    · rw [hshort, hm]
      rfl
    · rw [hexch]
      exact hmax
  · intro input opp h
    obtain ⟨tok, htok, hopp⟩ := mem_aggregate h
    obtain ⟨hsym, hexch, _⟩ := buildOpp_some hopp
    rw [hexch]
    exact (buildTokenData_ok input tok htok).2
  · norm_num [aggregate, aggregateOn, buildTokenDataOn, exchangeOrder, addExchange,
      collectTicker, getMidPrice, lastFallback, tickAt, mkEntry, jsOr, baseOf, insertToken,
      assocSet, buildOpp, priceEntries, fundingEntries, List.filter, pickMin, pickMax,
      pickMinFold, pickMaxFold, c6Input, emptyData, List.filterMap, List.foldl,
      List.takeWhile]
    decide

theorem C6_price_argmin_argmax_witness :
    (∃ m l₁ l₂,
      priceEntries [(Exchange.OKX, ⟨100, 0, 0, 1⟩), (Exchange.BYBIT, ⟨105, 0, 0, 1⟩),
          (Exchange.BINANCE, ⟨102, 0, 0, 1⟩)] = l₁ ++ m :: l₂ ∧
      (some Exchange.OKX : Option Exchange) = some m.1 ∧
      (∀ x ∈ l₁, m.2.price < x.2.price) ∧
      ∀ x ∈ priceEntries [(Exchange.OKX, ⟨100, 0, 0, 1⟩), (Exchange.BYBIT, ⟨105, 0, 0, 1⟩),
          (Exchange.BINANCE, ⟨102, 0, 0, 1⟩)], m.2.price ≤ x.2.price) ∧
    (∃ m l₁ l₂,
      priceEntries [(Exchange.OKX, ⟨100, 0, 0, 1⟩), (Exchange.BYBIT, ⟨105, 0, 0, 1⟩),
          (Exchange.BINANCE, ⟨102, 0, 0, 1⟩)] = l₁ ++ m :: l₂ ∧
      (some Exchange.BYBIT : Option Exchange) = some m.1 ∧
      (∀ x ∈ l₁, x.2.price < m.2.price) ∧
      ∀ x ∈ priceEntries [(Exchange.OKX, ⟨100, 0, 0, 1⟩), (Exchange.BYBIT, ⟨105, 0, 0, 1⟩),
          (Exchange.BINANCE, ⟨102, 0, 0, 1⟩)], x.2.price ≤ m.2.price) ∧
    List.Sublist (([(Exchange.OKX, ⟨100, 0, 0, 1⟩), (Exchange.BYBIT, ⟨105, 0, 0, 1⟩),
        (Exchange.BINANCE, ⟨102, 0, 0, 1⟩)] : List (Exchange × Entry)).map Prod.fst)
      exchangeOrder := by
  have hmem : (⟨"BTC",
      [(.OKX, ⟨100, 0, 0, 1⟩), (.BYBIT, ⟨105, 0, 0, 1⟩), (.BINANCE, ⟨102, 0, 0, 1⟩)],
      some .OKX, some .BYBIT, some .OKX, some .OKX⟩ : Opp) ∈ aggregate c6Input := by
    norm_num [aggregate, aggregateOn, buildTokenDataOn, exchangeOrder, addExchange,
      collectTicker, getMidPrice, lastFallback, tickAt, mkEntry, jsOr, baseOf, insertToken,
      assocSet, buildOpp, priceEntries, fundingEntries, List.filter, pickMin, pickMax,
      pickMinFold, pickMaxFold, c6Input, emptyData, List.filterMap, List.foldl,
      List.takeWhile]
    decide
  exact ⟨C6_price_argmin_argmax.1 c6Input _ hmem,
    C6_price_argmin_argmax.2.1 c6Input _ hmem,
    C6_price_argmin_argmax.2.2.1 c6Input _ hmem⟩

/-- C7: for every aggregation cycle and every base asset, no Opportunity is
produced unless at least 2 exchanges report a usable price for it: every
published Opportunity has at least two entries, the entries belong to
pairwise distinct exchanges (their key list is a sublist of the fixed
exchange order), and each entry's positive price is the usable price
`getMidPrice` of an actual ticker of that exchange. -/
theorem C7_min_two_exchanges (input : AggInput) (opp : Opp) (h : opp ∈ aggregate input) :
    2 ≤ opp.exchanges.length ∧
    List.Sublist (opp.exchanges.map Prod.fst) exchangeOrder ∧
    ∀ p ∈ opp.exchanges, 0 < p.2.price ∧
      ∃ sym t, (sym, t) ∈ (input p.1).tickers ∧ getMidPrice t = some p.2.price := by
  obtain ⟨tok, htok, hopp⟩ := mem_aggregate h
  obtain ⟨hsym, hexch, hlen, _⟩ := buildOpp_some hopp
  have hok := buildTokenData_ok input tok htok
  refine ⟨by rw [hexch]; exact hlen, by rw [hexch]; exact hok.2, ?_⟩
  intro p hp
  rw [hexch] at hp
  obtain ⟨hpos, sym, t, hmem, hmid, _⟩ := hok.1 p hp
  exact ⟨hpos, sym, t, hmem, hmid⟩

theorem C7_min_two_exchanges_witness :
    2 ≤ ([(Exchange.OKX, ⟨100, 0, 0, 1⟩), (Exchange.BYBIT, ⟨105, 0, 0, 1⟩),
        (Exchange.BINANCE, ⟨102, 0, 0, 1⟩)] : List (Exchange × Entry)).length ∧
    List.Sublist (([(Exchange.OKX, ⟨100, 0, 0, 1⟩), (Exchange.BYBIT, ⟨105, 0, 0, 1⟩),
        (Exchange.BINANCE, ⟨102, 0, 0, 1⟩)] : List (Exchange × Entry)).map Prod.fst)
      exchangeOrder ∧
    ∀ p ∈ ([(Exchange.OKX, ⟨100, 0, 0, 1⟩), (Exchange.BYBIT, ⟨105, 0, 0, 1⟩),
        (Exchange.BINANCE, ⟨102, 0, 0, 1⟩)] : List (Exchange × Entry)),
      0 < p.2.price ∧
        ∃ sym t, (sym, t) ∈ (c6Input p.1).tickers ∧ getMidPrice t = some p.2.price := by
  refine C7_min_two_exchanges c6Input
    ⟨"BTC", [(.OKX, ⟨100, 0, 0, 1⟩), (.BYBIT, ⟨105, 0, 0, 1⟩), (.BINANCE, ⟨102, 0, 0, 1⟩)],
      some .OKX, some .BYBIT, some .OKX, some .OKX⟩ ?_
  norm_num [aggregate, aggregateOn, buildTokenDataOn, exchangeOrder, addExchange,
    collectTicker, getMidPrice, lastFallback, tickAt, mkEntry, jsOr, baseOf, insertToken,
    assocSet, buildOpp, priceEntries, fundingEntries, List.filter, pickMin, pickMax,
    pickMinFold, pickMaxFold, c6Input, emptyData, List.filterMap, List.foldl,
    List.takeWhile]
  decide

/-- C5 counterexample: OKX has a usable price for the base asset but its
funding map has no record for the symbol, i.e. OKX does not report a funding
rate; BYBIT and BINANCE report rates 0.0010 and 0.0020.  Computed over
exactly the reporting subset the argmin would be BYBIT, but the code gives
OKX its default rate 0 and selects it as `longFundingExchange`. -/
theorem C5_counterexample :
    (aggregate c5cxInput).map (fun o => o.longFunding) = [some Exchange.OKX] ∧
    List.lookup "BTC/USDT:USDT" (c5cxInput Exchange.OKX).funding = none ∧
    ((List.lookup "BTC/USDT:USDT" (c5cxInput Exchange.BYBIT).funding).bind
      (fun r => r.fundingRate)) = some (1 / 1000) ∧
    ((List.lookup "BTC/USDT:USDT" (c5cxInput Exchange.BINANCE).funding).bind
      (fun r => r.fundingRate)) = some (2 / 1000) := by
  refine ⟨?_, rfl, rfl, rfl⟩
  norm_num [aggregate, aggregateOn, buildTokenDataOn, exchangeOrder, addExchange,
    collectTicker, getMidPrice, lastFallback, tickAt, mkEntry, jsOr, baseOf, insertToken,
    assocSet, buildOpp, priceEntries, fundingEntries, List.filter, pickMin, pickMax,
    pickMinFold, pickMaxFold, c5cxInput, emptyData, List.filterMap, List.foldl,
    List.takeWhile, List.lookup]
  decide

/-- C5 (amended): `longFundingExchange` is the argmin and
`shortFundingExchange` the argmax of `fundingRate` computed over ALL
exchanges carrying a usable price for the base asset — the funding filter
`typeof d.fundingRate === 'number'` accepts every entry because a missing
funding record defaults the rate to 0, so the funding subset always
coincides with the price subset; ties go to the earlier entry in the fixed
exchange order.  The example {A:-0.0010, B:0.0020, C:0.0005} still gives
`longFundingExchange = A` and `shortFundingExchange = B`. -/
theorem C5_funding_argmin_argmax :
    (∀ exs : List (Exchange × Entry), fundingEntries exs = exs) ∧
    (∀ (input : AggInput) (opp : Opp), opp ∈ aggregate input →
      priceEntries opp.exchanges = opp.exchanges) ∧
    (∀ (input : AggInput) (opp : Opp), opp ∈ aggregate input →
      ∃ m l₁ l₂, opp.exchanges = l₁ ++ m :: l₂ ∧ opp.longFunding = some m.1 ∧
        (∀ x ∈ l₁, m.2.fundingRate < x.2.fundingRate) ∧
        ∀ x ∈ opp.exchanges, m.2.fundingRate ≤ x.2.fundingRate) ∧
    (∀ (input : AggInput) (opp : Opp), opp ∈ aggregate input →
      ∃ m l₁ l₂, opp.exchanges = l₁ ++ m :: l₂ ∧ opp.shortFunding = some m.1 ∧
        (∀ x ∈ l₁, x.2.fundingRate < m.2.fundingRate) ∧
        ∀ x ∈ opp.exchanges, x.2.fundingRate ≤ m.2.fundingRate) ∧
    (aggregate c5Input).map (fun o => (o.longFunding, o.shortFunding))
      = [(some .OKX, some .BYBIT)] := by
  refine ⟨fundingEntries_eq, ?_, ?_, ?_, ?_⟩
  · intro input opp h
    obtain ⟨tok, htok, hopp⟩ := mem_aggregate h
    obtain ⟨_, hexch, _⟩ := buildOpp_some hopp
    rw [hexch]
    exact priceEntries_eq_of_pos
      (fun p hp => ((buildTokenData_ok input tok htok).1 p hp).1)
  · intro input opp h
    obtain ⟨tok, htok, hopp⟩ := mem_aggregate h
    obtain ⟨hsym, hexch, hlen, hpelen, hlong, hshort, hlf, hsf⟩ := buildOpp_some hopp
    rw [fundingEntries_eq] at hlf
    have hne : tok.exchanges ≠ [] := by
      intro hnil
      rw [hnil] at hlen
      simp at hlen
    obtain ⟨m, hm⟩ := pickMin_isSome (fun p => p.2.fundingRate) _ hne
    obtain ⟨l₁, l₂, hdec, hstrict, hmin⟩ := pickMin_spec _ _ _ hm
    refine ⟨m, l₁, l₂, ?_, ?_, hstrict, ?_⟩
    · rw [hexch]
      exact hdec
    · rw [hlf, hm]
      rfl
    · rw [hexch]
      exact hmin
  · intro input opp h
    obtain ⟨tok, htok, hopp⟩ := mem_aggregate h
    obtain ⟨hsym, hexch, hlen, hpelen, hlong, hshort, hlf, hsf⟩ := buildOpp_some hopp
    rw [fundingEntries_eq] at hsf
    have hne : tok.exchanges ≠ [] := by
      intro hnil
      rw [hnil] at hlen
      simp at hlen
    obtain ⟨m, hm⟩ := pickMax_isSome (fun p => p.2.fundingRate) _ hne
    obtain ⟨l₁, l₂, hdec, hstrict, hmax⟩ := pickMax_spec _ _ _ hm
    refine ⟨m, l₁, l₂, ?_, ?_, hstrict, ?_⟩
    · rw [hexch]
      exact hdec
    · rw [hsf, hm]
      rfl
    · rw [hexch]
      exact hmax
  · norm_num [aggregate, aggregateOn, buildTokenDataOn, exchangeOrder, addExchange,
      collectTicker, getMidPrice, lastFallback, tickAt, mkEntry, jsOr, baseOf, insertToken,
      assocSet, buildOpp, priceEntries, fundingEntries, List.filter, pickMin, pickMax,
      pickMinFold, pickMaxFold, c5Input, emptyData, List.filterMap, List.foldl,
      List.takeWhile, List.lookup]
    decide

theorem C5_funding_argmin_argmax_witness :
    priceEntries [(Exchange.OKX, ⟨100, -1, 0, 1⟩), (Exchange.BYBIT, ⟨100, 2, 0, 1⟩),
        (Exchange.BINANCE, ⟨100, 1, 0, 1⟩)]
      = [(Exchange.OKX, ⟨100, -1, 0, 1⟩), (Exchange.BYBIT, ⟨100, 2, 0, 1⟩),
        (Exchange.BINANCE, ⟨100, 1, 0, 1⟩)] ∧
    (∃ m l₁ l₂,
      ([(Exchange.OKX, ⟨100, -1, 0, 1⟩), (Exchange.BYBIT, ⟨100, 2, 0, 1⟩),
          (Exchange.BINANCE, ⟨100, 1, 0, 1⟩)] : List (Exchange × Entry))
        = l₁ ++ m :: l₂ ∧
      (some Exchange.OKX : Option Exchange) = some m.1 ∧
      (∀ x ∈ l₁, m.2.fundingRate < x.2.fundingRate) ∧
      ∀ x ∈ ([(Exchange.OKX, ⟨100, -1, 0, 1⟩), (Exchange.BYBIT, ⟨100, 2, 0, 1⟩),
          (Exchange.BINANCE, ⟨100, 1, 0, 1⟩)] : List (Exchange × Entry)),
        m.2.fundingRate ≤ x.2.fundingRate) ∧
    (∃ m l₁ l₂,
      ([(Exchange.OKX, ⟨100, -1, 0, 1⟩), (Exchange.BYBIT, ⟨100, 2, 0, 1⟩),
          (Exchange.BINANCE, ⟨100, 1, 0, 1⟩)] : List (Exchange × Entry))
        = l₁ ++ m :: l₂ ∧
      (some Exchange.BYBIT : Option Exchange) = some m.1 ∧
      (∀ x ∈ l₁, x.2.fundingRate < m.2.fundingRate) ∧
      ∀ x ∈ ([(Exchange.OKX, ⟨100, -1, 0, 1⟩), (Exchange.BYBIT, ⟨100, 2, 0, 1⟩),
          (Exchange.BINANCE, ⟨100, 1, 0, 1⟩)] : List (Exchange × Entry)),
        x.2.fundingRate ≤ m.2.fundingRate) := by
  have hmem : (⟨"BTC",
      [(.OKX, ⟨100, -1, 0, 1⟩), (.BYBIT, ⟨100, 2, 0, 1⟩), (.BINANCE, ⟨100, 1, 0, 1⟩)],
      some .OKX, some .OKX, some .OKX, some .BYBIT⟩ : Opp) ∈ aggregate c5wInput := by
    norm_num [aggregate, aggregateOn, buildTokenDataOn, exchangeOrder, addExchange,
      collectTicker, getMidPrice, lastFallback, tickAt, mkEntry, jsOr, baseOf, insertToken,
      assocSet, buildOpp, priceEntries, fundingEntries, List.filter, pickMin, pickMax,
      pickMinFold, pickMaxFold, c5wInput, emptyData, List.filterMap, List.foldl,
      List.takeWhile, List.lookup]
    decide
  exact ⟨C5_funding_argmin_argmax.2.1 c5wInput _ hmem,
    C5_funding_argmin_argmax.2.2.1 c5wInput _ hmem,
    C5_funding_argmin_argmax.2.2.2.1 c5wInput _ hmem⟩

/-- C10 counterexample: OKX's funding map stores a record with funding rate
0 and funding time 123 for the symbol; the entry added to the Opportunity
then has `fundingRate = 0` but `nextFundingTime = 123`, not 0 as the claim
demands when "the stored funding rate is 0". -/
theorem C10_counterexample :
    (aggregate c10Input).map
        (fun o => (List.lookup Exchange.OKX o.exchanges).map
          (fun e => (e.fundingRate, e.nextFundingTime)))
      = [some ((0 : ℚ), (123 : ℚ))] ∧
    List.lookup "BTC/USDT:USDT" (c10Input Exchange.OKX).funding
      = some ⟨some 0, some 123, none⟩ ∧
    (123 : ℚ) ≠ 0 := by
  refine ⟨?_, rfl, by norm_num⟩
  norm_num [aggregate, aggregateOn, buildTokenDataOn, exchangeOrder, addExchange,
    collectTicker, getMidPrice, lastFallback, tickAt, mkEntry, jsOr, baseOf, insertToken,
    assocSet, buildOpp, priceEntries, fundingEntries, List.filter, pickMin, pickMax,
    pickMinFold, pickMaxFold, c10Input, emptyData, List.filterMap, List.foldl,
    List.takeWhile, List.lookup]
  decide

/-- C10 (amended): if the exchange's funding map has no record for the
entry's symbol, the entry's `fundingRate` and `nextFundingTime` both default
to exactly 0; if a record exists, each field defaults independently — a
stored rate of 0/undefined yields `fundingRate = 0` and a stored funding
time of 0/undefined yields `nextFundingTime = 0` (so a record with rate 0
but a nonzero time keeps that time).  Every exchange entry thus carries a
numeric funding rate into the funding argmin/argmax comparison rather than
being excluded from it. -/
theorem C10_funding_defaults :
    (∀ (fmap : FMap) (sym : String) (t : Ticker) (p : ℚ),
      List.lookup sym fmap = none →
        (mkEntry fmap sym t p).fundingRate = 0 ∧ (mkEntry fmap sym t p).nextFundingTime = 0) ∧
    (∀ (fmap : FMap) (sym : String) (t : Ticker) (p : ℚ) (r : FundingRec),
      List.lookup sym fmap = some r → (r.fundingRate = none ∨ r.fundingRate = some 0) →
        (mkEntry fmap sym t p).fundingRate = 0) ∧
    (∀ (fmap : FMap) (sym : String) (t : Ticker) (p : ℚ) (r : FundingRec),
      List.lookup sym fmap = some r → (r.fundingTime = none ∨ r.fundingTime = some 0) →
        (mkEntry fmap sym t p).nextFundingTime = 0) ∧
    (∀ (input : AggInput) (opp : Opp), opp ∈ aggregate input →
      fundingEntries opp.exchanges = opp.exchanges) := by
  refine ⟨?_, ?_, ?_, ?_⟩
  · intro fmap sym t p h
    constructor
    · show jsOr ((List.lookup sym fmap).bind (·.fundingRate)) 0 = 0
      rw [h]
      rfl
    · show jsOr ((List.lookup sym fmap).bind (·.fundingTime)) 0 = 0
      rw [h]
      rfl
  · intro fmap sym t p r h hr
    show jsOr ((List.lookup sym fmap).bind (·.fundingRate)) 0 = 0
    rw [h]
    rcases hr with hr | hr
    · rw [Option.some_bind, hr]
      rfl
    · rw [Option.some_bind, hr]
      show (if (0 : ℚ) = 0 then (0 : ℚ) else 0) = 0
      rw [if_pos rfl]
  · intro fmap sym t p r h hr
    show jsOr ((List.lookup sym fmap).bind (·.fundingTime)) 0 = 0
    rw [h]
    rcases hr with hr | hr
    · rw [Option.some_bind, hr]
      rfl
    · rw [Option.some_bind, hr]
      show (if (0 : ℚ) = 0 then (0 : ℚ) else 0) = 0
      rw [if_pos rfl]
  · intro input opp _
    exact fundingEntries_eq opp.exchanges

theorem C10_funding_defaults_witness :
    ((mkEntry [] "S" ⟨some 1, some 1, some 1, none⟩ 5).fundingRate = 0 ∧
      (mkEntry [] "S" ⟨some 1, some 1, some 1, none⟩ 5).nextFundingTime = 0) ∧
    (mkEntry [("S", ⟨some 0, some 123, none⟩)] "S" ⟨some 1, some 1, some 1, none⟩ 5).fundingRate
      = 0 ∧
    (mkEntry [("S", ⟨some 9, none, none⟩)] "S" ⟨some 1, some 1, some 1, none⟩ 5).nextFundingTime
      = 0 ∧
    fundingEntries [(Exchange.OKX, ⟨100, 0, 0, 1⟩), (Exchange.BYBIT, ⟨105, 0, 0, 1⟩),
        (Exchange.BINANCE, ⟨102, 0, 0, 1⟩)]
      = [(Exchange.OKX, ⟨100, 0, 0, 1⟩), (Exchange.BYBIT, ⟨105, 0, 0, 1⟩),
        (Exchange.BINANCE, ⟨102, 0, 0, 1⟩)] := by
  have hmem : (⟨"BTC",
      [(.OKX, ⟨100, 0, 0, 1⟩), (.BYBIT, ⟨105, 0, 0, 1⟩), (.BINANCE, ⟨102, 0, 0, 1⟩)],
      some .OKX, some .BYBIT, some .OKX, some .OKX⟩ : Opp) ∈ aggregate c6Input := by
    norm_num [aggregate, aggregateOn, buildTokenDataOn, exchangeOrder, addExchange,
      collectTicker, getMidPrice, lastFallback, tickAt, mkEntry, jsOr, baseOf, insertToken,
      assocSet, buildOpp, priceEntries, fundingEntries, List.filter, pickMin, pickMax,
      pickMinFold, pickMaxFold, c6Input, emptyData, List.filterMap, List.foldl,
      List.takeWhile]
    decide
  exact ⟨C10_funding_defaults.1 [] "S" ⟨some 1, some 1, some 1, none⟩ 5 rfl,
    C10_funding_defaults.2.1 [("S", ⟨some 0, some 123, none⟩)] "S"
      ⟨some 1, some 1, some 1, none⟩ 5 ⟨some 0, some 123, none⟩ rfl (Or.inr rfl),
    C10_funding_defaults.2.2.1 [("S", ⟨some 9, none, none⟩)] "S"
      ⟨some 1, some 1, some 1, none⟩ 5 ⟨some 9, none, none⟩ rfl (Or.inl rfl),
    C10_funding_defaults.2.2.2 c6Input _ hmem⟩
